import Mathlib

/-!
Verification of the document-to-mind-map pipeline: content extraction
(`extractContentFromFiles`), graph synthesis validation
(`generateMindMapWithGemini`), layered layout (`applyDagreLayout`), and
the orchestrator (`handleGenerateMindMap`).  Source: the frontend library
`mindmapUtils.ts` and the form component `InputForm.tsx`.
-/

set_option maxHeartbeats 1000000

namespace MindMap

/-! ### JavaScript string truncation -/

/-- JavaScript `text.substring(0, n)`: the first `n` characters of `s`
(the whole string when it is shorter than `n`). -/
def jsSubstring (s : String) (n : Nat) : String :=
  ⟨s.data.take n⟩

/-! ### Content extraction (`extractContentFromFiles` and helpers) -/

/-- An uploaded file as the extractor sees it: declared name and mime type,
the text its format-specific extractor would produce on success, and a flag
marking a file whose extraction throws inside the format-specific helper. -/
structure SrcFile where
  name : String
  type : String
  content : String
  failing : Bool
deriving DecidableEq, Repr

/-- One extracted entry `{ name, text }` as pushed by
`extractContentFromFiles`. -/
structure ExtractedEntry where
  name : String
  text : String
deriving DecidableEq, Repr

/-- Mime type dispatched to the PDF extractor. -/
def pdfMime : String := "application/pdf"

/-- Mime type dispatched to the DOCX extractor. -/
def docxMime : String :=
  "application/vnd.openxmlformats-officedocument.wordprocessingml.document"

/-- Mime type dispatched to the plain-text extractor. -/
def txtMime : String := "text/plain"

/-- Source `extractTextFromPdf`: the pdfjs-based page walk is an external library
call; its observable contract in the source is that it returns the file's
extracted text and that any error is caught inside and yields `""`. -/
def extractTextFromPdf (f : SrcFile) : String :=
  if f.failing then "" else f.content

/-- Source `extractTextFromDocx`: mammoth raw-text extraction; errors are caught
inside and yield `""`. -/
def extractTextFromDocx (f : SrcFile) : String :=
  if f.failing then "" else f.content

/-- Source `extractTextFromTxt`: `file.text()`; errors are caught inside and
yield `""`. -/
def extractTextFromTxt (f : SrcFile) : String :=
  if f.failing then "" else f.content

/-- Source `extractContentFromFiles(files, charLimitPerFile = 10000)`: dispatch on
the declared mime type, skip (`continue`) unsupported types, truncate each
extracted text with `substring(0, charLimitPerFile)`, and push
`{name, text}` entries in input order. -/
def extractContentFromFiles (files : List SrcFile)
    (charLimitPerFile : Nat := 10000) : List ExtractedEntry :=
  match files with
  | [] => []
  | f :: rest =>
    let tail := extractContentFromFiles rest charLimitPerFile
    if f.type == pdfMime then
      ⟨f.name, jsSubstring (extractTextFromPdf f) charLimitPerFile⟩ :: tail
    else if f.type == docxMime then
      ⟨f.name, jsSubstring (extractTextFromDocx f) charLimitPerFile⟩ :: tail
    else if f.type == txtMime then
      ⟨f.name, jsSubstring (extractTextFromTxt f) charLimitPerFile⟩ :: tail
    else
      tail

/-- The three mime types the dispatch in `extractContentFromFiles` accepts. -/
def supportedMimes : List String := [pdfMime, docxMime, txtMime]

/-- The `accept` attribute of the hidden file input in `InputForm`. -/
def inputFormAccept : List String := [".pdf", ".txt", ".doc", ".docx"]

/-! ### Graph synthesis (`generateMindMapWithGemini`) -/

/-- A JSON value as produced by `JSON.parse` on the model response. -/
inductive Json where
  | null : Json
  | bool : Bool → Json
  | num : Int → Json
  | str : String → Json
  | arr : List Json → Json
  | obj : List (String × Json) → Json

/-- Behavior of `JSON.parse` on duplicate keys as duplicate-key resolution: the last binding of a key wins. -/
def jsLookup : List (String × Json) → String → Option Json
  | [], _ => none
  | (k', v) :: rest, k =>
    match jsLookup rest k with
    | some r => some r
    | none => if k' == k then some v else none

/-- JavaScript member access `j.k`: throws on `null` (modelled as `none`),
yields `undefined` (modelled as `some none`) on other non-objects, and
looks the key up on an object. -/
def jsMember : Json → String → Option (Option Json)
  | .null, _ => none
  | .obj fields, k => some (jsLookup fields k)
  | _, _ => some none

/-- JavaScript truthiness of a JSON value. -/
def jsTruthy : Json → Bool
  | .null => false
  | .bool b => b
  | .num n => n != 0
  | .str s => s != ""
  | .arr _ => true
  | .obj _ => true

/-- Truthiness of a possibly-`undefined` value (`undefined` is falsy). -/
def jsTruthyOpt : Option Json → Bool
  | none => false
  | some v => jsTruthy v

/-- Source `generateMindMapWithGemini`: the SDK round trip is abstracted into its
outcome `callResult` — `none` when the network/SDK call throws (caught,
yielding `null`), `some none` when `JSON.parse` on the response text throws
(caught, yielding `null`), and `some (some parsed)` for a parsed response.
The source then checks `if (!parsed.nodes || !parsed.edges) return null`
and otherwise returns `parsed`; a member access that throws (on a `null`
response) is caught by the surrounding `try`, yielding `null`. -/
def generateMindMapWithGemini (callResult : Option (Option Json)) :
    Option Json :=
  match callResult with
  | none => none
  | some none => none
  | some (some parsed) =>
    match jsMember parsed "nodes" with
    | none => none
    | some nodesVal =>
      match jsMember parsed "edges" with
      | none => none
      | some edgesVal =>
        if !(jsTruthyOpt nodesVal) || !(jsTruthyOpt edgesVal) then none
        else some parsed

/-- Whether a JSON value is a sequence (an array). -/
def Json.isArr : Json → Bool
  | .arr _ => true
  | _ => false

/-! ### Layout engine (`applyDagreLayout` over a spec-modelled dagre core) -/

/-- A ReactFlow anchor side. -/
inductive Position where
  | Top
  | Bottom
  | Left
  | Right
deriving DecidableEq, Repr

/-- The `data` payload of a ReactFlow node (`{ label }`). -/
structure NodeData where
  label : String
deriving DecidableEq, Repr

/-- A ReactFlow node as built and laid out by the pipeline. -/
structure RFNode where
  id : String
  data : NodeData
  position : Int × Int
  sourcePosition : Option Position := none
  targetPosition : Option Position := none
deriving DecidableEq, Repr

/-- A ReactFlow edge (`{ id, source, target }`). -/
structure RFEdge where
  id : String
  source : String
  target : String
deriving DecidableEq, Repr

/-- Node box width registered with dagre (`nodeWidth = 172`). -/
def nodeWidth : Int := 172

/-- Node box height registered with dagre (`nodeHeight = 50`). -/
def nodeHeight : Int := 50

/-- Cross-axis spacing passed to dagre (`nodesep: 50`). -/
def nodesep : Int := 50

/-- Flow-axis rank spacing passed to dagre (`ranksep: 70`). -/
def ranksep : Int := 70

/-- Modelled from the spec: the dagre library's ranking phase is not part
of this repository; §4.4 specifies a topological longest-path layering as
an acceptable strategy.  `rankAux es fuel v` is the length of the longest
directed path ending at `v` that uses at most `fuel` edges. -/
def rankAux (es : List RFEdge) : Nat → String → Nat
  | 0, _ => 0
  | fuel + 1, v =>
    ((es.filter fun e => e.target == v).map
      fun e => rankAux es fuel e.source + 1).foldr max 0

/-- Modelled from the spec: a node's rank, computed with enough fuel that
on an acyclic graph the longest-path computation has converged (any
edge-repetition-free path uses at most `es.length` edges). -/
def rankOf (es : List RFEdge) (v : String) : Nat :=
  rankAux es (es.length + 1) v

/-- Ranking has converged at the fuel used by `rankOf`: one more step of
the longest-path iteration changes no edge source's rank.  On every
acyclic graph this holds; a cycle makes layered ranking impossible. -/
def rankingConverged (es : List RFEdge) : Prop :=
  ∀ v ∈ es.map RFEdge.source, rankAux es es.length v = rankAux es (es.length + 1) v

instance (es : List RFEdge) : Decidable (rankingConverged es) := by
  unfold rankingConverged
  infer_instance

/-- Graph registration with duplicate collapse: ids in first-registration
order, each kept once (`dagreGraph.setNode` overwrites an existing id). -/
def dedupIds : List String → List String → List String
  | _, [] => []
  | seen, x :: xs =>
    if seen.contains x then dedupIds seen xs
    else x :: dedupIds (x :: seen) xs

/-- The node ids registered with the dagre graph, duplicates collapsed. -/
def registeredIds (nodes : List RFNode) : List String :=
  dedupIds [] (nodes.map RFNode.id)

/-- Modelled from the spec: the dagre library's ordering and coordinate
assignment are not part of this repository; §4.4 positions rank `r` at
`r × (node extent + rank spacing)` on the flow axis, spaces nodes within a
rank by the inter-node spacing on the cross axis, and the within-rank
order is an unconstrained heuristic (registration order here).  Returns
the assigned center point `(x, y)` of node `v`. -/
def dagreCenter (nodes : List RFNode) (es : List RFEdge) (direction : String)
    (v : String) : Int × Int :=
  let r := rankOf es v
  let sameRank := (registeredIds nodes).filter fun u => rankOf es u == r
  let i := sameRank.findIdx fun u => u == v
  if direction == "TB" then
    ((i : Int) * (nodeWidth + nodesep), (r : Int) * (nodeHeight + ranksep))
  else
    ((r : Int) * (nodeWidth + ranksep), (i : Int) * (nodeHeight + nodesep))

/-- The pair returned by `applyDagreLayout`. -/
structure LayoutResult where
  layoutedNodes : List RFNode
  layoutedEdges : List RFEdge
deriving DecidableEq, Repr

/-- Source `applyDagreLayout(nodes, edges, direction = "TB")`: register every node
with the standard box size and every edge, run dagre layout, then map every
input node to a copy with anchor sides chosen by direction and with the
assigned center converted to a top-left position by subtracting half the
box width and height.  Edges are returned as passed in. -/
def applyDagreLayout (nodes : List RFNode) (edges : List RFEdge)
    (direction : String := "TB") : LayoutResult :=
  let layoutedNodes := nodes.map fun node =>
    let c := dagreCenter nodes edges direction node.id
    { node with
      targetPosition := some (if direction == "TB" then Position.Top else Position.Left)
      sourcePosition := some (if direction == "TB" then Position.Bottom else Position.Right)
      position := (c.1 - nodeWidth / 2, c.2 - nodeHeight / 2) }
  ⟨layoutedNodes, edges⟩

/-! ### Orchestrator (`handleGenerateMindMap` in `InputForm`) -/

/-- Truthiness of the `VITE_GEMINI_API_KEY` value: absent or empty is
falsy. -/
def jsTruthyStr : Option String → Bool
  | none => false
  | some s => s != ""

/-- The terminal condition `handleGenerateMindMap` reaches. -/
inductive GenerationOutcome where
  | errNoFiles
  | errNoApiKey
  | errBadResponse
  | ready
deriving DecidableEq, Repr

/-- Trace of one orchestrator run: the outcome, whether document
extraction ran, whether the synthesis call was made, and the accepted
graph (when any). -/
structure OrchTrace where
  outcome : GenerationOutcome
  extractionCalled : Bool
  synthesisCalled : Bool
  accepted : Option Json

/-- Source `handleGenerateMindMap`: bail out with a message when no file is
uploaded; then read the API key and bail out with the configuration error
when it is falsy, before any extraction or network call; otherwise extract
the uploaded files with a 5000-character budget, invoke synthesis, re-check
`geminiResponse && geminiResponse.nodes && geminiResponse.edges`, and on
success hand the converted graph to `applyDagreLayout` (the conversion and
layout are analyzed separately through `applyDagreLayout`). -/
def handleGenerateMindMap (uploadedFiles : List SrcFile)
    (apiKey : Option String) (callResult : Option (Option Json)) : OrchTrace :=
  if uploadedFiles.length == 0 then
    ⟨.errNoFiles, false, false, none⟩
  else if !(jsTruthyStr apiKey) then
    ⟨.errNoApiKey, false, false, none⟩
  else
    let _fileContents := extractContentFromFiles uploadedFiles 5000
    match generateMindMapWithGemini callResult with
    | some parsed =>
      if jsTruthyOpt ((jsMember parsed "nodes").getD none) &&
          jsTruthyOpt ((jsMember parsed "edges").getD none) then
        ⟨.ready, true, true, some parsed⟩
      else
        ⟨.errBadResponse, true, true, none⟩
    | none => ⟨.errBadResponse, true, true, none⟩

/-! ### Supporting lemmas -/

theorem length_jsSubstring_le (s : String) (n : Nat) :
    (jsSubstring s n).length ≤ n := by
  have h : (jsSubstring s n).length = (s.data.take n).length := rfl
  rw [h, List.length_take]
  exact Nat.min_le_left _ _

theorem jsSubstring_empty (n : Nat) : jsSubstring "" n = "" := by
  have h : String.data "" = [] := rfl
  simp [jsSubstring, h]

theorem extractContentFromFiles_append (xs ys : List SrcFile) (n : Nat) :
    extractContentFromFiles (xs ++ ys) n =
      extractContentFromFiles xs n ++ extractContentFromFiles ys n := by
  induction xs with
  | nil => simp [extractContentFromFiles]
  | cons f rest ih =>
    simp only [List.cons_append, extractContentFromFiles]
    by_cases h1 : f.type == pdfMime
    · simp [h1, ih]
    · by_cases h2 : f.type == docxMime
      · simp [h1, h2, ih]
      · by_cases h3 : f.type == txtMime
        · simp [h1, h2, h3, ih]
        · simp [h1, h2, h3, ih]

theorem extractContentFromFiles_cons_supported (f : SrcFile)
    (rest : List SrcFile) (n : Nat) (hf : f.type ∈ supportedMimes) :
    extractContentFromFiles (f :: rest) n =
      ⟨f.name, jsSubstring (if f.failing then "" else f.content) n⟩ ::
        extractContentFromFiles rest n := by
  have hdp : (docxMime == pdfMime) = false := by decide
  have htp : (txtMime == pdfMime) = false := by decide
  have htd : (txtMime == docxMime) = false := by decide
  simp only [supportedMimes, List.mem_cons, List.not_mem_nil, or_false] at hf
  rcases hf with hf | hf | hf <;>
    simp [extractContentFromFiles, hf, hdp, htp, htd,
      extractTextFromPdf, extractTextFromDocx, extractTextFromTxt]

theorem extractContentFromFiles_cons_unsupported (f : SrcFile)
    (rest : List SrcFile) (n : Nat) (hf : f.type ∉ supportedMimes) :
    extractContentFromFiles (f :: rest) n = extractContentFromFiles rest n := by
  simp only [supportedMimes, List.mem_cons, List.not_mem_nil, or_false,
    not_or] at hf
  obtain ⟨h1, h2, h3⟩ := hf
  simp [extractContentFromFiles, h1, h2, h3]

/-! ### C3 — extraction of supported files is complete, ordered, bounded -/

/-- C3: for a list of input files all of supported types, extraction
returns exactly one text entry per file, in input order (matching names
position by position), and each entry's text length is at most the
configured per-file character budget. -/
theorem extractContentFromFiles_supported_complete
    (files : List SrcFile) (charLimit : Nat)
    (h : ∀ f ∈ files, f.type ∈ supportedMimes) :
    (extractContentFromFiles files charLimit).length = files.length ∧
    (extractContentFromFiles files charLimit).map ExtractedEntry.name =
      files.map SrcFile.name ∧
    ∀ entry ∈ extractContentFromFiles files charLimit,
      entry.text.length ≤ charLimit := by
  induction files with
  | nil => simp [extractContentFromFiles]
  | cons f rest ih =>
    have hf := h f (List.mem_cons_self f rest)
    obtain ⟨ih1, ih2, ih3⟩ := ih fun g hg => h g (List.mem_cons_of_mem f hg)
    rw [extractContentFromFiles_cons_supported f rest charLimit hf]
    refine ⟨by simp [ih1], by simp [ih2], ?_⟩
    intro entry hentry
    rcases List.mem_cons.mp hentry with he | he
    · subst he
      exact length_jsSubstring_le _ _
    · exact ih3 entry he

/-- The concrete batch used to witness C3. -/
def wc3Files : List SrcFile :=
  [⟨"a.pdf", pdfMime, "alpha", false⟩,
   ⟨"b.docx", docxMime, "bravo", false⟩,
   ⟨"c.txt", txtMime, "charlie", false⟩]

/-- Witness for C3 at a concrete three-file batch of the three supported
types, with the budget bound read off at the first entry. -/
theorem extractContentFromFiles_supported_complete_witness :
    (∀ f ∈ wc3Files, f.type ∈ supportedMimes) ∧
    (extractContentFromFiles wc3Files 5000).length = wc3Files.length ∧
    (extractContentFromFiles wc3Files 5000).map ExtractedEntry.name =
      wc3Files.map SrcFile.name ∧
    (ExtractedEntry.mk "a.pdf" "alpha").text.length ≤ 5000 :=
  ⟨by decide,
    (extractContentFromFiles_supported_complete wc3Files 5000 (by decide)).1,
    (extractContentFromFiles_supported_complete wc3Files 5000 (by decide)).2.1,
    (extractContentFromFiles_supported_complete wc3Files 5000 (by decide)).2.2
      ⟨"a.pdf", "alpha"⟩ (by decide)⟩

/-! ### C4 — unsupported files are skipped, failures are isolated -/

/-- C4: an unsupported file contributes zero entries and does not block the
other files (the batch output is exactly the output for the files around
it); an extraction failure for a supported file contributes an empty-text
entry and does not abort the rest of the batch. -/
theorem extractContentFromFiles_isolation
    (pre post : List SrcFile) (u f : SrcFile) (n : Nat)
    (hu : u.type ∉ supportedMimes)
    (hf : f.type ∈ supportedMimes) (hfail : f.failing = true) :
    extractContentFromFiles (pre ++ u :: post) n =
      extractContentFromFiles pre n ++ extractContentFromFiles post n ∧
    extractContentFromFiles (pre ++ f :: post) n =
      extractContentFromFiles pre n ++
        ⟨f.name, ""⟩ :: extractContentFromFiles post n := by
  constructor
  · rw [extractContentFromFiles_append,
      extractContentFromFiles_cons_unsupported u post n hu]
  · rw [extractContentFromFiles_append,
      extractContentFromFiles_cons_supported f post n hf, hfail]
    simp [jsSubstring_empty]

/-- Witness for C4: one unsupported file and one failing PDF inside a batch
of healthy supported files. -/
theorem extractContentFromFiles_isolation_witness :
    ((SrcFile.mk "x.gif" "image/gif" "" false).type ∉ supportedMimes ∧
      (SrcFile.mk "bad.pdf" pdfMime "secret" true).type ∈ supportedMimes ∧
      (SrcFile.mk "bad.pdf" pdfMime "secret" true).failing = true) ∧
    (extractContentFromFiles
        ([⟨"a.txt", txtMime, "alpha", false⟩] ++
          ⟨"x.gif", "image/gif", "", false⟩ ::
            [⟨"b.txt", txtMime, "bravo", false⟩]) 5000 =
      extractContentFromFiles [⟨"a.txt", txtMime, "alpha", false⟩] 5000 ++
        extractContentFromFiles [⟨"b.txt", txtMime, "bravo", false⟩] 5000 ∧
    extractContentFromFiles
        ([⟨"a.txt", txtMime, "alpha", false⟩] ++
          ⟨"bad.pdf", pdfMime, "secret", true⟩ ::
            [⟨"b.txt", txtMime, "bravo", false⟩]) 5000 =
      extractContentFromFiles [⟨"a.txt", txtMime, "alpha", false⟩] 5000 ++
        ⟨"bad.pdf", ""⟩ ::
          extractContentFromFiles [⟨"b.txt", txtMime, "bravo", false⟩] 5000) :=
  ⟨⟨by decide, by decide, rfl⟩,
    extractContentFromFiles_isolation
      [⟨"a.txt", txtMime, "alpha", false⟩]
      [⟨"b.txt", txtMime, "bravo", false⟩]
      ⟨"x.gif", "image/gif", "", false⟩
      ⟨"bad.pdf", pdfMime, "secret", true⟩ 5000
      (by decide) (by decide) rfl⟩

/-! ### C10 — exact mime dispatch; legacy `.doc` admitted but skipped -/

/-- C10: dispatch accepts exactly the three supported mime strings (a
single file yields an entry precisely when its declared type is one of
them); a legacy Word file of mime type `application/msword` contributes no
entry while the rest of the batch is extracted; yet the file picker's
`accept` filter admits the `.doc` extension. -/
theorem extraction_dispatch_msword_skipped
    (pre post : List SrcFile) (f : SrcFile) (n : Nat)
    (h : f.type = "application/msword") :
    extractContentFromFiles (pre ++ f :: post) n =
      extractContentFromFiles pre n ++ extractContentFromFiles post n ∧
    ".doc" ∈ inputFormAccept ∧
    ∀ g : SrcFile, (extractContentFromFiles [g] n).length =
      if g.type ∈ supportedMimes then 1 else 0 := by
  refine ⟨?_, by decide, ?_⟩
  · have hm : f.type ∉ supportedMimes := by rw [h]; decide
    rw [extractContentFromFiles_append,
      extractContentFromFiles_cons_unsupported f post n hm]
  · intro g
    by_cases hg : g.type ∈ supportedMimes
    · rw [extractContentFromFiles_cons_supported g [] n hg]
      simp [hg, extractContentFromFiles]
    · rw [extractContentFromFiles_cons_unsupported g [] n hg]
      simp [hg, extractContentFromFiles]

/-- Witness for C10: a `.doc` file (`application/msword`) between two
supported files contributes nothing. -/
theorem extraction_dispatch_msword_skipped_witness :
    ((SrcFile.mk "old.doc" "application/msword" "legacy" false).type =
      "application/msword") ∧
    (extractContentFromFiles
        ([⟨"a.pdf", pdfMime, "alpha", false⟩] ++
          ⟨"old.doc", "application/msword", "legacy", false⟩ ::
            [⟨"b.txt", txtMime, "bravo", false⟩]) 10000 =
      extractContentFromFiles [⟨"a.pdf", pdfMime, "alpha", false⟩] 10000 ++
        extractContentFromFiles [⟨"b.txt", txtMime, "bravo", false⟩] 10000 ∧
    ".doc" ∈ inputFormAccept ∧
    (extractContentFromFiles
        [⟨"old.doc", "application/msword", "legacy", false⟩] 10000).length =
      if (SrcFile.mk "old.doc" "application/msword" "legacy" false).type ∈
          supportedMimes then 1 else 0) :=
  ⟨rfl,
    (extraction_dispatch_msword_skipped
      [⟨"a.pdf", pdfMime, "alpha", false⟩]
      [⟨"b.txt", txtMime, "bravo", false⟩]
      ⟨"old.doc", "application/msword", "legacy", false⟩ 10000 rfl).1,
    (extraction_dispatch_msword_skipped
      [⟨"a.pdf", pdfMime, "alpha", false⟩]
      [⟨"b.txt", txtMime, "bravo", false⟩]
      ⟨"old.doc", "application/msword", "legacy", false⟩ 10000 rfl).2.1,
    (extraction_dispatch_msword_skipped
      [⟨"a.pdf", pdfMime, "alpha", false⟩]
      [⟨"b.txt", txtMime, "bravo", false⟩]
      ⟨"old.doc", "application/msword", "legacy", false⟩ 10000 rfl).2.2
      ⟨"old.doc", "application/msword", "legacy", false⟩⟩

/-! ### C2 — the synthesizer fails to `null`, never to a partial graph -/

/-- C2: `generateMindMapWithGemini` returns `null` whenever the model call
throws, whenever parsing the response text fails, whenever the parsed
response is not an object, and whenever the `nodes` or the `edges` field is
absent — in particular a response missing only the `edges` field. -/
theorem generateMindMapWithGemini_defensive :
    generateMindMapWithGemini none = none ∧
    generateMindMapWithGemini (some none) = none ∧
    (∀ j : Json, (∀ fields, j ≠ .obj fields) →
      generateMindMapWithGemini (some (some j)) = none) ∧
    (∀ fields, jsLookup fields "nodes" = none →
      generateMindMapWithGemini (some (some (.obj fields))) = none) ∧
    (∀ fields, jsLookup fields "edges" = none →
      generateMindMapWithGemini (some (some (.obj fields))) = none) := by
  refine ⟨rfl, rfl, ?_, ?_, ?_⟩
  · intro j hj
    cases j with
    | obj fields => exact absurd rfl (hj fields)
    | null => rfl
    | bool b => rfl
    | num n => rfl
    | str s => rfl
    | arr l => rfl
  · intro fields hl
    simp [generateMindMapWithGemini, jsMember, hl, jsTruthyOpt]
  · intro fields hl
    simp [generateMindMapWithGemini, jsMember, hl, jsTruthyOpt]

/-- Witness for C2: a well-formed object carrying `nodes` but no `edges`
field is rejected with `null`. -/
theorem generateMindMapWithGemini_defensive_witness :
    jsLookup [("nodes", Json.arr [])] "edges" = none ∧
    generateMindMapWithGemini
      (some (some (.obj [("nodes", Json.arr [])]))) = none :=
  ⟨rfl, generateMindMapWithGemini_defensive.2.2.2.2 [("nodes", Json.arr [])] rfl⟩

/-! ### C5 — acceptance does not actually guarantee sequence values -/

/-- Counterexample to C5 as stated: the acceptance check is JavaScript
truthiness, not arrayness, so the object `{nodes: "x", edges: "y"}` is
accepted even though neither field holds a sequence. -/
theorem generateMindMapWithGemini_accepts_non_arrays :
    generateMindMapWithGemini
        (some (some (.obj [("nodes", Json.str "x"), ("edges", Json.str "y")]))) =
      some (.obj [("nodes", Json.str "x"), ("edges", Json.str "y")]) ∧
    (jsLookup [("nodes", Json.str "x"), ("edges", Json.str "y")] "nodes").map
      Json.isArr = some false ∧
    (jsLookup [("nodes", Json.str "x"), ("edges", Json.str "y")] "edges").map
      Json.isArr = some false :=
  ⟨rfl, rfl, rfl⟩

/-- C5 amended: every accepted graph (non-`null` return) is a JSON object
whose `nodes` and `edges` keys are both present with truthy values — empty
arrays qualify, but truthy non-sequence values are accepted as well, so
presence and truthiness (not sequence-ness) is all acceptance guarantees. -/
theorem generateMindMapWithGemini_accepted_shape
    (callResult : Option (Option Json)) (j : Json)
    (h : generateMindMapWithGemini callResult = some j) :
    ∃ fields, j = Json.obj fields ∧
      (∃ nv, jsLookup fields "nodes" = some nv ∧ jsTruthy nv = true) ∧
      (∃ ev, jsLookup fields "edges" = some ev ∧ jsTruthy ev = true) := by
  match callResult with
  | none => exact absurd h (by simp [generateMindMapWithGemini])
  | some none => exact absurd h (by simp [generateMindMapWithGemini])
  | some (some parsed) =>
    cases parsed with
    | null => exact absurd h (by simp [generateMindMapWithGemini, jsMember])
    | bool b => exact absurd h (by simp [generateMindMapWithGemini, jsMember, jsTruthyOpt])
    | num n => exact absurd h (by simp [generateMindMapWithGemini, jsMember, jsTruthyOpt])
    | str s => exact absurd h (by simp [generateMindMapWithGemini, jsMember, jsTruthyOpt])
    | arr l => exact absurd h (by simp [generateMindMapWithGemini, jsMember, jsTruthyOpt])
    | obj fields =>
      refine ⟨fields, ?_, ?_, ?_⟩
      · simp only [generateMindMapWithGemini, jsMember] at h
        by_cases hc : (!jsTruthyOpt (jsLookup fields "nodes") ||
            !jsTruthyOpt (jsLookup fields "edges")) = true
        · rw [if_pos hc] at h; exact absurd h (by simp)
        · rw [if_neg hc] at h; exact (Option.some_injective _ h).symm
      · simp only [generateMindMapWithGemini, jsMember] at h
        by_cases hc : (!jsTruthyOpt (jsLookup fields "nodes") ||
            !jsTruthyOpt (jsLookup fields "edges")) = true
        · rw [if_pos hc] at h; exact absurd h (by simp)
        · simp only [Bool.or_eq_true, Bool.not_eq_true', not_or] at hc
          obtain ⟨hn, _⟩ := hc
          match hnv : jsLookup fields "nodes" with
          | none => rw [hnv] at hn; exact absurd hn (by simp [jsTruthyOpt])
          | some nv =>
            rw [hnv] at hn
            exact ⟨nv, rfl, by simpa [jsTruthyOpt] using hn⟩
      · simp only [generateMindMapWithGemini, jsMember] at h
        by_cases hc : (!jsTruthyOpt (jsLookup fields "nodes") ||
            !jsTruthyOpt (jsLookup fields "edges")) = true
        · rw [if_pos hc] at h; exact absurd h (by simp)
        · simp only [Bool.or_eq_true, Bool.not_eq_true', not_or] at hc
          obtain ⟨_, he⟩ := hc
          match hev : jsLookup fields "edges" with
          | none => rw [hev] at he; exact absurd he (by simp [jsTruthyOpt])
          | some ev =>
            rw [hev] at he
            exact ⟨ev, rfl, by simpa [jsTruthyOpt] using he⟩

/-- Witness for the amended C5 at the accepted graph
`{nodes: [], edges: []}` (empty arrays are truthy, hence accepted). -/
theorem generateMindMapWithGemini_accepted_shape_witness :
    ∃ fields, Json.obj [("nodes", Json.arr []), ("edges", Json.arr [])] =
        Json.obj fields ∧
      (∃ nv, jsLookup fields "nodes" = some nv ∧ jsTruthy nv = true) ∧
      (∃ ev, jsLookup fields "edges" = some ev ∧ jsTruthy ev = true) :=
  generateMindMapWithGemini_accepted_shape
    (some (some (.obj [("nodes", Json.arr []), ("edges", Json.arr [])])))
    (.obj [("nodes", Json.arr []), ("edges", Json.arr [])]) rfl

/-! ### Layout lemmas -/

theorem rankAux_succ (es : List RFEdge) (n : Nat) (v : String) :
    rankAux es (n + 1) v =
      ((es.filter fun e => e.target == v).map
        fun e => rankAux es n e.source + 1).foldr max 0 := rfl

theorem le_foldr_max (l : List Nat) (x : Nat) (hx : x ∈ l) :
    x ≤ l.foldr max 0 := by
  induction l with
  | nil => cases hx
  | cons a t ih =>
    rcases List.mem_cons.mp hx with h | h
    · subst h; exact le_max_left _ _
    · exact le_trans (ih h) (le_max_right _ _)

theorem rankOf_lt_of_mem (es : List RFEdge) (hconv : rankingConverged es)
    (e : RFEdge) (he : e ∈ es) :
    rankOf es e.source < rankOf es e.target := by
  have hc := hconv e.source (List.mem_map_of_mem RFEdge.source he)
  have hmem : (rankAux es es.length e.source + 1) ∈
      ((es.filter fun e' => e'.target == e.target).map
        fun e' => rankAux es es.length e'.source + 1) := by
    apply List.mem_map_of_mem
    exact List.mem_filter.mpr ⟨he, by simp⟩
  have h2 : rankAux es es.length e.source + 1 ≤
      rankAux es (es.length + 1) e.target := by
    rw [rankAux_succ]
    exact le_foldr_max _ _ hmem
  calc rankOf es e.source = rankAux es es.length e.source := hc.symm
    _ < rankAux es es.length e.source + 1 := Nat.lt_succ_self _
    _ ≤ rankOf es e.target := h2

theorem layoutedNodes_mem_iff (ns : List RFNode) (es : List RFEdge)
    (direction : String) (m : RFNode) :
    m ∈ (applyDagreLayout ns es direction).layoutedNodes ↔
      ∃ o ∈ ns,
        { o with
          targetPosition :=
            some (if direction == "TB" then Position.Top else Position.Left)
          sourcePosition :=
            some (if direction == "TB" then Position.Bottom else Position.Right)
          position :=
            ((dagreCenter ns es direction o.id).1 - nodeWidth / 2,
             (dagreCenter ns es direction o.id).2 - nodeHeight / 2) } = m := by
  simp [applyDagreLayout, List.mem_map]

theorem dagreCenter_TB_flow (ns : List RFNode) (es : List RFEdge)
    (v : String) :
    (dagreCenter ns es "TB" v).2 = (rankOf es v : Int) * (nodeHeight + ranksep) := by
  simp [dagreCenter]

/-! ### C1 — ranks (and hence flow-axis coordinates) increase along edges -/

/-- C1: whenever the longest-path ranking has converged (which it does on
every acyclic graph), every edge's target receives a strictly greater rank
than its source, and consequently in vertical ("TB") layout every
laid-out node matching an edge's target sits at a strictly greater y
coordinate than every laid-out node matching that edge's source. -/
theorem applyDagreLayout_ranking (ns : List RFNode) (es : List RFEdge)
    (hconv : rankingConverged es) :
    (∀ e ∈ es, rankOf es e.source < rankOf es e.target) ∧
    (∀ e ∈ es,
      ∀ nt ∈ (applyDagreLayout ns es "TB").layoutedNodes,
      ∀ ms ∈ (applyDagreLayout ns es "TB").layoutedNodes,
      nt.id = e.target → ms.id = e.source →
      ms.position.2 < nt.position.2) := by
  refine ⟨fun e he => rankOf_lt_of_mem es hconv e he, ?_⟩
  intro e he nt hnt ms hms ht hs
  obtain ⟨ot, hot, rfl⟩ := (layoutedNodes_mem_iff ns es "TB" nt).mp hnt
  obtain ⟨os, hos, rfl⟩ := (layoutedNodes_mem_iff ns es "TB" ms).mp hms
  have ht' : ot.id = e.target := ht
  have hs' : os.id = e.source := hs
  show (dagreCenter ns es "TB" os.id).2 - nodeHeight / 2 <
    (dagreCenter ns es "TB" ot.id).2 - nodeHeight / 2
  rw [dagreCenter_TB_flow, dagreCenter_TB_flow, ht', hs']
  have hr := rankOf_lt_of_mem es hconv e he
  simp only [nodeHeight, ranksep]
  norm_num
  omega

/-- The input nodes of the C1 witness graph. -/
def wNodeA : RFNode := { id := "a", data := ⟨"Root"⟩, position := (0, 0) }

/-- Second input node of the C1 witness graph. -/
def wNodeB : RFNode := { id := "b", data := ⟨"Child"⟩, position := (0, 0) }

/-- The single edge a → b of the C1 witness graph. -/
def wEdgeAB : RFEdge := { id := "e1-a-b", source := "a", target := "b" }

/-- Laid-out node "a" in the C1 witness graph (rank 0, top-left y = -25). -/
def wLaidA : RFNode :=
  { id := "a", data := ⟨"Root"⟩, position := (-86, -25),
    sourcePosition := some Position.Bottom,
    targetPosition := some Position.Top }

/-- Laid-out node "b" in the C1 witness graph (rank 1, top-left y = 95). -/
def wLaidB : RFNode :=
  { id := "b", data := ⟨"Child"⟩, position := (-86, 95),
    sourcePosition := some Position.Bottom,
    targetPosition := some Position.Top }

/-- Witness for C1 at the two-node graph `a → b`: vertical layout puts "b"
strictly below (greater y than) "a". -/
theorem applyDagreLayout_ranking_witness :
    rankingConverged [wEdgeAB] ∧ wLaidA.position.2 < wLaidB.position.2 :=
  ⟨by decide,
    (applyDagreLayout_ranking [wNodeA, wNodeB] [wEdgeAB] (by decide)).2
      wEdgeAB (by decide) wLaidB (by decide) wLaidA (by decide) rfl rfl⟩

/-! ### C7 — box centering and direction-dependent anchors -/

/-- C7: every laid-out node's position is its assigned center point minus
half the box width on x and half the box height on y, and anchor sides
follow the direction: "TB" flow gives a top target anchor and a bottom
source anchor, any other (horizontal) flow gives left target and right
source anchors. -/
theorem applyDagreLayout_centering_anchors (ns : List RFNode)
    (es : List RFEdge) (direction : String) :
    ∀ m ∈ (applyDagreLayout ns es direction).layoutedNodes,
      m.position = ((dagreCenter ns es direction m.id).1 - nodeWidth / 2,
        (dagreCenter ns es direction m.id).2 - nodeHeight / 2) ∧
      m.targetPosition =
        some (if direction == "TB" then Position.Top else Position.Left) ∧
      m.sourcePosition =
        some (if direction == "TB" then Position.Bottom else Position.Right) := by
  intro m hm
  obtain ⟨o, ho, rfl⟩ := (layoutedNodes_mem_iff ns es direction m).mp hm
  exact ⟨rfl, rfl, rfl⟩

/-- Witness for C7 at the laid-out node "a" of the concrete two-node
vertical layout. -/
theorem applyDagreLayout_centering_anchors_witness :
    wLaidA ∈ (applyDagreLayout [wNodeA, wNodeB] [wEdgeAB] "TB").layoutedNodes ∧
    (wLaidA.position =
        ((dagreCenter [wNodeA, wNodeB] [wEdgeAB] "TB" wLaidA.id).1 - nodeWidth / 2,
         (dagreCenter [wNodeA, wNodeB] [wEdgeAB] "TB" wLaidA.id).2 - nodeHeight / 2) ∧
      wLaidA.targetPosition =
        some (if "TB" == "TB" then Position.Top else Position.Left) ∧
      wLaidA.sourcePosition =
        some (if "TB" == "TB" then Position.Bottom else Position.Right)) :=
  ⟨by decide,
    applyDagreLayout_centering_anchors [wNodeA, wNodeB] [wEdgeAB] "TB"
      wLaidA (by decide)⟩

/-! ### C8 — the layout engine never mutates edge records -/

/-- C8: for every input, the edges of the laid-out graph are exactly the
input edge list, unmodified; only node positions and anchors are
computed. -/
theorem applyDagreLayout_edges_unchanged (ns : List RFNode)
    (es : List RFEdge) (direction : String) :
    (applyDagreLayout ns es direction).layoutedEdges = es := rfl

/-! ### C9 — node preservation and duplicate-id collapse -/

theorem dedupIds_cons (seen : List String) (x : String) (xs : List String) :
    dedupIds seen (x :: xs) =
      if seen.contains x then dedupIds seen xs
      else x :: dedupIds (x :: seen) xs := rfl

theorem dedupIds_spec (l : List String) : ∀ seen : List String,
    (∀ x ∈ dedupIds seen l, seen.contains x = false) ∧
    (dedupIds seen l).Nodup := by
  induction l with
  | nil =>
    intro seen
    constructor
    · intro x hx
      cases hx
    · exact List.nodup_nil
  | cons x xs ih =>
    intro seen
    by_cases hx : seen.contains x = true
    · rw [dedupIds_cons, if_pos hx]
      exact ih seen
    · rw [dedupIds_cons, if_neg hx]
      have hx' : seen.contains x = false := by
        cases h : seen.contains x
        · rfl
        · exact absurd h hx
      constructor
      · intro y hy
        rcases List.mem_cons.mp hy with h | h
        · subst h; exact hx'
        · have := (ih (x :: seen)).1 y h
          simp only [List.contains_cons, Bool.or_eq_false_iff] at this
          exact this.2
      · refine List.nodup_cons.mpr ⟨?_, (ih (x :: seen)).2⟩
        intro hmem
        have := (ih (x :: seen)).1 x hmem
        simp [List.contains_cons] at this

/-- C9: layout returns exactly one output node per input node, in input
order, preserving each node's id and data (label); the registered layout
graph collapses duplicate ids (its id list is duplicate-free); and any two
output entries sharing an id receive identical positions and identical
anchor sides. -/
theorem applyDagreLayout_nodes_preserved (ns : List RFNode)
    (es : List RFEdge) (direction : String) :
    (applyDagreLayout ns es direction).layoutedNodes.length = ns.length ∧
    (applyDagreLayout ns es direction).layoutedNodes.map RFNode.id =
      ns.map RFNode.id ∧
    (applyDagreLayout ns es direction).layoutedNodes.map RFNode.data =
      ns.map RFNode.data ∧
    (registeredIds ns).Nodup ∧
    (∀ m1 ∈ (applyDagreLayout ns es direction).layoutedNodes,
      ∀ m2 ∈ (applyDagreLayout ns es direction).layoutedNodes,
      m1.id = m2.id →
      m1.position = m2.position ∧
      m1.sourcePosition = m2.sourcePosition ∧
      m1.targetPosition = m2.targetPosition) := by
  refine ⟨by simp [applyDagreLayout], by simp [applyDagreLayout],
    by simp [applyDagreLayout], (dedupIds_spec (ns.map RFNode.id) []).2, ?_⟩
  intro m1 hm1 m2 hm2 h12
  obtain ⟨o1, ho1, rfl⟩ := (layoutedNodes_mem_iff ns es direction m1).mp hm1
  obtain ⟨o2, ho2, rfl⟩ := (layoutedNodes_mem_iff ns es direction m2).mp hm2
  have hid : o1.id = o2.id := h12
  refine ⟨?_, rfl, rfl⟩
  show ((dagreCenter ns es direction o1.id).1 - nodeWidth / 2,
      (dagreCenter ns es direction o1.id).2 - nodeHeight / 2) =
    ((dagreCenter ns es direction o2.id).1 - nodeWidth / 2,
      (dagreCenter ns es direction o2.id).2 - nodeHeight / 2)
  rw [hid]

/-- Input list with a duplicated id used to witness C9. -/
def wDupNodes : List RFNode :=
  [{ id := "a", data := ⟨"First"⟩, position := (0, 0) },
   { id := "b", data := ⟨"Mid"⟩, position := (0, 0) },
   { id := "a", data := ⟨"Second"⟩, position := (0, 0) }]

/-- First laid-out copy of the duplicated id "a" in the C9 witness. -/
def wDupLaid1 : RFNode :=
  { id := "a", data := ⟨"First"⟩, position := (-86, -25),
    sourcePosition := some Position.Bottom,
    targetPosition := some Position.Top }

/-- Second laid-out copy of the duplicated id "a" in the C9 witness. -/
def wDupLaid2 : RFNode :=
  { id := "a", data := ⟨"Second"⟩, position := (-86, -25),
    sourcePosition := some Position.Bottom,
    targetPosition := some Position.Top }

/-- Witness for C9 at a three-node input whose first and third nodes share
the id "a": ids and labels survive in order, registration collapses the
duplicate, and the two copies receive identical positions and anchors. -/
theorem applyDagreLayout_nodes_preserved_witness :
    (applyDagreLayout wDupNodes [] "TB").layoutedNodes.length =
      wDupNodes.length ∧
    (applyDagreLayout wDupNodes [] "TB").layoutedNodes.map RFNode.id =
      wDupNodes.map RFNode.id ∧
    (registeredIds wDupNodes).Nodup ∧
    (wDupLaid1 ∈ (applyDagreLayout wDupNodes [] "TB").layoutedNodes ∧
      wDupLaid2 ∈ (applyDagreLayout wDupNodes [] "TB").layoutedNodes ∧
      wDupLaid1.id = wDupLaid2.id) ∧
    (wDupLaid1.position = wDupLaid2.position ∧
      wDupLaid1.sourcePosition = wDupLaid2.sourcePosition ∧
      wDupLaid1.targetPosition = wDupLaid2.targetPosition) :=
  ⟨(applyDagreLayout_nodes_preserved wDupNodes [] "TB").1,
    (applyDagreLayout_nodes_preserved wDupNodes [] "TB").2.1,
    (applyDagreLayout_nodes_preserved wDupNodes [] "TB").2.2.2.1,
    ⟨by decide, by decide, rfl⟩,
    (applyDagreLayout_nodes_preserved wDupNodes [] "TB").2.2.2.2
      wDupLaid1 (by decide) wDupLaid2 (by decide) rfl⟩

/-! ### C6 — missing credential fails before extraction and synthesis -/

/-- C6: when files were uploaded but the API key is missing (falsy), the
orchestrator reaches the distinct credential-error outcome with neither
document extraction nor the synthesis call ever invoked, whatever the
synthesis call would have returned. -/
theorem handleGenerateMindMap_credential_guard (files : List SrcFile)
    (apiKey : Option String) (callResult : Option (Option Json))
    (hfiles : files ≠ []) (hkey : jsTruthyStr apiKey = false) :
    handleGenerateMindMap files apiKey callResult =
      ⟨.errNoApiKey, false, false, none⟩ := by
  cases files with
  | nil => exact absurd rfl hfiles
  | cons f rest => simp [handleGenerateMindMap, hkey]

/-- Witness for C6: one uploaded PDF and an unset key reach the credential
error with extraction and synthesis flags both false. -/
theorem handleGenerateMindMap_credential_guard_witness :
    ([⟨"a.pdf", pdfMime, "alpha", false⟩] : List SrcFile) ≠ [] ∧
    jsTruthyStr none = false ∧
    handleGenerateMindMap [⟨"a.pdf", pdfMime, "alpha", false⟩] none none =
      ⟨.errNoApiKey, false, false, none⟩ :=
  ⟨by decide, rfl,
    handleGenerateMindMap_credential_guard
      [⟨"a.pdf", pdfMime, "alpha", false⟩] none none (by decide) rfl⟩

end MindMap
